import Mathlib

/-!
Shallow embedding of the SM-2 spaced-repetition core of GreekBot
(src/greekapp/srs.py) and verification of its specification.

Modelling conventions:
* Python floats are modelled as exact rationals (ℚ); the numeric literals
  0.1, 0.08, 0.02, 1.2, 0.014 of the source become 1/10, 2/25, 1/50, 6/5,
  7/500.
* Timestamps are rationals counting days since an arbitrary epoch; the
  wall clock (datetime.now(UTC)) is passed in as an explicit `now`
  parameter.  The Python distinction between aware and naive datetimes matters for
  CardState.is_due, so the value of `due_at` is modelled by `PyDatetime`,
  which has a constructor for the naive `datetime.min` sentinel; ordering
  comparison between an aware and a naive datetime raises TypeError in
  Python, modelled as an `Except.error`.
* The review ledger (table `reviews`, append-only, `reviewed_at` defaulting
  to the insertion time) is modelled as a list of `ReviewEvent` kept in
  chronological order: `record_review` appends at the end, and the SQL
  `ORDER BY reviewed_at DESC` over the events of one word is list reversal.
* Functions that raise (ValueError for an out-of-range quality) return
  `Except String`.
-/

namespace GreekBot

/-- Constant from srs.py line 20. -/
def DEFAULT_EASE : ℚ := 5/2

/-- Constant from srs.py line 21. -/
def MIN_EASE : ℚ := 13/10

/-- Constant from srs.py line 22 (0.014 days, about 20 minutes). -/
def LEARNING_STEP : ℚ := 7/500

/-- Constant from srs.py line 23: consecutive failures before a word is a leech. -/
def LEECH_THRESHOLD : ℕ := 4

/-- The dataclass CardState of srs.py (lines 26-34), with the same field
defaults: ease 2.5, interval 0 days, repetition 0, no last review. -/
structure CardState where
  word_id : ℤ
  greek : String
  english : String
  ease_factor : ℚ := DEFAULT_EASE
  interval : ℚ := 0
  repetition : ℤ := 0
  last_review : Option ℚ := none
deriving DecidableEq

/-- A Python datetime as far as `due_at` needs it: either the naive
`datetime.min` sentinel or a timezone-aware instant. -/
inductive PyDatetime where
  | naiveMin : PyDatetime
  | aware : ℚ → PyDatetime
deriving DecidableEq

/-- CardState.due_at (srs.py lines 36-40): `datetime.min` when the card was
never reviewed, otherwise last_review + interval days. -/
def due_at (s : CardState) : PyDatetime :=
  match s.last_review with
  | none => .naiveMin
  | some lr => .aware (lr + s.interval)

/-- The Python comparison a >= b on datetimes: defined between two aware (or two naive)
values, raising TypeError on a mixed comparison. -/
def pyDatetimeGe : PyDatetime → PyDatetime → Except String Bool
  | .aware x, .aware y => .ok (decide (y ≤ x))
  | .naiveMin, .naiveMin => .ok true
  | _, _ => .error "TypeError: aware and naive datetimes are not comparable"

/-- CardState.is_due (srs.py lines 42-44): `datetime.now(UTC) >= self.due_at`,
with `now` aware. -/
def is_due (now : ℚ) (s : CardState) : Except String Bool :=
  pyDatetimeGe (.aware now) (due_at s)

/-- The SM-2 ease update of srs.py lines 68-69:
`max(ease + (0.1 - (5-q)*(0.08 + (5-q)*0.02)), MIN_EASE)`. -/
def updatedEase (ease : ℚ) (quality : ℤ) : ℚ :=
  max (ease + (1/10 - (5 - (quality : ℚ)) * (2/25 + (5 - (quality : ℚ)) * (1/50)))) MIN_EASE

/-- The overdue-decay test of srs.py lines 93-98: previous interval above one
day, a last review present, and elapsed/interval above 3. -/
def severelyOverdue (now : ℚ) (s : CardState) : Bool :=
  decide (1 < s.interval) &&
    (match s.last_review with
     | some lr => decide (3 < (now - lr) / s.interval)
     | none => false)

/-- next_state (srs.py lines 60-109): the SM-2 transition with learning steps
and overdue decay, raising ValueError for a quality outside 0-5. -/
def next_state (now : ℚ) (state : CardState) (quality : ℤ) : Except String CardState :=
  if quality < 0 ∨ 5 < quality then
    .error "quality must be 0-5"
  else
    let ease := updatedEase state.ease_factor quality
    if quality < 3 then
      .ok { word_id := state.word_id, greek := state.greek, english := state.english,
            ease_factor := ease, interval := 0, repetition := 0, last_review := some now }
    else
      let interval0 :=
        if state.repetition = 0 then LEARNING_STEP
        else if state.repetition = 1 then 1
        else if state.repetition = 2 then 6
        else state.interval * ease
      let interval :=
        if severelyOverdue now state then min interval0 (state.interval * (6/5))
        else interval0
      .ok { word_id := state.word_id, greek := state.greek, english := state.english,
            ease_factor := ease, interval := interval, repetition := state.repetition + 1,
            last_review := some now }

/-- One row of the append-only `reviews` table (db.py lines 124-131): the
quality observed and the resulting state snapshot, stamped with the review
time. -/
structure ReviewEvent where
  word_id : ℤ
  quality : ℤ
  ease_factor : ℚ
  interval : ℚ
  repetition : ℤ
  reviewed_at : ℚ
deriving DecidableEq

/-- record_review (srs.py lines 112-122): compute the next state and append
one ledger row; a ValueError from next_state propagates before any insert. -/
def record_review (now : ℚ) (ledger : List ReviewEvent) (state : CardState)
    (quality : ℤ) : Except String (List ReviewEvent × CardState) :=
  match next_state now state quality with
  | .error e => .error e
  | .ok newState =>
      .ok (ledger ++ [{ word_id := newState.word_id, quality := quality,
                        ease_factor := newState.ease_factor, interval := newState.interval,
                        repetition := newState.repetition, reviewed_at := now }],
           newState)

/-- The ledger rows of one word, in insertion (chronological) order. -/
def eventsFor (ledger : List ReviewEvent) (wid : ℤ) : List ReviewEvent :=
  ledger.filter (fun e => decide (e.word_id = wid))

/-- The loop of get_consecutive_failures (srs.py lines 133-139): count
leading rows with quality < 3, stopping at the first success. -/
def countLeadingFailures : List ReviewEvent → ℕ
  | [] => 0
  | e :: rest => if e.quality < 3 then countLeadingFailures rest + 1 else 0

/-- get_consecutive_failures (srs.py lines 125-139): scan the 10 most
recent rows of the word (ORDER BY reviewed_at DESC LIMIT 10) and count the leading
failures. -/
def get_consecutive_failures (ledger : List ReviewEvent) (wid : ℤ) : ℕ :=
  countLeadingFailures (((eventsFor ledger wid).reverse).take 10)

/-- is_leech (srs.py lines 142-144). -/
def is_leech (ledger : List ReviewEvent) (wid : ℤ) : Bool :=
  decide (LEECH_THRESHOLD ≤ get_consecutive_failures ledger wid)

/-- One row of the `words` table as the SRS core reads it: id, the two texts,
and the optional free-form tags column. -/
structure Word where
  id : ℤ
  greek : String
  english : String
  tags : Option String := none
deriving DecidableEq

/-- Keep the first occurrence of each id, dropping later duplicates. -/
def dedupFirst (seen : List ℤ) : List ℤ → List ℤ
  | [] => []
  | x :: xs => if x ∈ seen then dedupFirst seen xs else x :: dedupFirst (x :: seen) xs

/-- The candidate query of get_leeches (srs.py lines 150-157): word ids having
a failing review, grouped, ordered by most recent failure first
(reversing the chronological ledger), limited to 3 * limit. -/
def leechCandidates (ledger : List ReviewEvent) (limit : ℕ) : List ℤ :=
  (dedupFirst []
    (((ledger.filter (fun e => decide (e.quality < 3))).reverse).map (fun e => e.word_id))).take
    (limit * 3)

/-- The loop of get_leeches (srs.py lines 159-172): keep candidates that are
leeches and exist in the words table, as fresh default CardStates, stopping
once `limit` are collected. -/
def collectLeeches (words : List Word) (ledger : List ReviewEvent) (limit : ℕ) :
    List ℤ → List CardState → List CardState
  | [], acc => acc
  | wid :: rest, acc =>
      let acc1 :=
        if is_leech ledger wid then
          match words.find? (fun w => decide (w.id = wid)) with
          | some w => acc ++ [{ word_id := w.id, greek := w.greek, english := w.english }]
          | none => acc
        else acc
      if limit ≤ acc1.length then acc1 else collectLeeches words ledger limit rest acc1

/-- get_leeches (srs.py lines 147-173). -/
def get_leeches (words : List Word) (ledger : List ReviewEvent) (limit : ℕ) : List CardState :=
  collectLeeches words ledger limit (leechCandidates ledger limit) []

/-- The most recent ledger row of a word (the rn = 1 row of the window query
in load_due_cards, srs.py lines 193-197): the last row in chronological
order. -/
def latestEvent (ledger : List ReviewEvent) (wid : ℤ) : Option ReviewEvent :=
  ((eventsFor ledger wid).reverse).head?

/-- The SELECT of load_due_cards (srs.py lines 185-197 and 233-250): join a
word with its latest review row, COALESCE-ing the virgin defaults. -/
def cardOf (ledger : List ReviewEvent) (w : Word) : CardState :=
  match latestEvent ledger w.id with
  | none =>
      { word_id := w.id, greek := w.greek, english := w.english,
        ease_factor := DEFAULT_EASE, interval := 0, repetition := 0, last_review := none }
  | some e =>
      { word_id := w.id, greek := w.greek, english := w.english,
        ease_factor := e.ease_factor, interval := e.interval,
        repetition := e.repetition, last_review := some e.reviewed_at }

/-- The dueness test in the WHERE clause of load_due_cards (srs.py
lines 198-200): never reviewed, or reviewed_at + interval days has passed. -/
def dueInQuery (now : ℚ) (c : CardState) : Bool :=
  match c.last_review with
  | none => true
  | some lr => decide (lr + c.interval ≤ now)

/-- The tag exclusion in the WHERE clause of load_due_cards (srs.py
lines 201 and 207): a LIKE pattern made of the marker skip:manual surrounded
by percent wildcards, i.e. a substring match on the tags column. -/
def hasSkipTag (w : Word) : Bool :=
  match w.tags with
  | none => false
  | some t => decide ("skip:manual".toList <:+: t.toList)

/-- The ORDER BY of load_due_cards (srs.py lines 202-205) as a total boolean
preorder: reviewed rows first by ascending review time, then never-reviewed
rows ordered by the RANDOM() tiebreak, modelled as a caller-supplied key on
word ids. -/
def dueLe (randKey : ℤ → ℚ) (a b : CardState) : Bool :=
  match a.last_review, b.last_review with
  | some x, some y => decide (x ≤ y)
  | some _, none => true
  | none, some _ => false
  | none, none => decide (randKey a.word_id ≤ randKey b.word_id)

/-- load_due_cards (srs.py lines 176-251): the due, non-excluded words as
CardStates, sorted by the ORDER BY above, limited. -/
def load_due_cards (now : ℚ) (words : List Word) (ledger : List ReviewEvent)
    (randKey : ℤ → ℚ) (limit : ℕ) : List CardState :=
  ((((words.filter (fun w => !hasSkipTag w)).map (cardOf ledger)).filter
      (dueInQuery now)).mergeSort (dueLe randKey)).take limit

/-- The dict returned by get_retention_stats (srs.py lines 295-305). -/
structure RetentionStats where
  retention_rate : ℚ
  recent_retention : ℚ
  total_reviews : ℕ
  recent_reviews : ℕ
  avg_quality_recent : ℚ
  avg_quality_older : ℚ
  quality_trend : String
deriving DecidableEq

/-- Mean quality of a batch of rows, with SQL AVG of no rows (NULL) read back
as 0 by the Python truthiness test at srs.py lines 292-293. -/
def avgQuality (rows : List ReviewEvent) : ℚ :=
  if rows.length = 0 then 0 else (rows.map (fun e => (e.quality : ℚ))).sum / rows.length

/-- get_retention_stats (srs.py lines 254-305): overall and trailing-7-day
retention percentages, review counts, mean qualities, and the trend label. -/
def get_retention_stats (now : ℚ) (ledger : List ReviewEvent) : RetentionStats :=
  let total_count := ledger.length
  let success_count := (ledger.filter (fun e => decide (3 ≤ e.quality))).length
  let recent := ledger.filter (fun e => decide (now - 7 ≤ e.reviewed_at))
  let older := ledger.filter (fun e => decide (e.reviewed_at < now - 7))
  let recent_success := (recent.filter (fun e => decide (3 ≤ e.quality))).length
  let avg_recent_q := avgQuality recent
  let avg_older_q := avgQuality older
  { retention_rate := if 0 < total_count then (success_count : ℚ) / total_count * 100 else 0,
    recent_retention :=
      if 0 < recent.length then (recent_success : ℚ) / recent.length * 100 else 0,
    total_reviews := total_count,
    recent_reviews := recent.length,
    avg_quality_recent := avg_recent_q,
    avg_quality_older := avg_older_q,
    quality_trend :=
      if avg_older_q + 3/10 < avg_recent_q then "improving"
      else if avg_recent_q < avg_older_q - 3/10 then "declining"
      else "stable" }

/-- The interval table of the spec (section 4.1), written from the words of
the spec for comparison with next_state: branch on the repetition count before
the review, with the newly updated ease factor for the growth branch. -/
def specBranchInterval (s : CardState) (newEase : ℚ) : ℚ :=
  if s.repetition = 0 then LEARNING_STEP
  else if s.repetition = 1 then 1
  else if s.repetition = 2 then 6
  else s.interval * newEase

/-- A fresh card used as a concrete input in witnesses. -/
def cardV : CardState := { word_id := 1, greek := "g", english := "e" }

/-- The state cardV reaches after a quality-0 review at time 0. -/
def cardV0 : CardState :=
  { word_id := 1, greek := "g", english := "e", ease_factor := 17/10,
    interval := 0, repetition := 0, last_review := some 0 }

/-- A graduated card, ten-day interval, last reviewed at time 0. -/
def cardOverdue : CardState :=
  { word_id := 1, greek := "g", english := "e", ease_factor := 5/2,
    interval := 10, repetition := 5, last_review := some 0 }

/-- The state cardOverdue reaches after a quality-4 review at time 40. -/
def cardOverdueNext : CardState :=
  { word_id := 1, greek := "g", english := "e", ease_factor := 5/2,
    interval := 12, repetition := 6, last_review := some 40 }

/-- Five consecutive failing reviews of word 1. -/
def ledgerFiveFails : List ReviewEvent :=
  [{ word_id := 1, quality := 1, ease_factor := 2, interval := 0, repetition := 0, reviewed_at := 1 },
   { word_id := 1, quality := 1, ease_factor := 2, interval := 0, repetition := 0, reviewed_at := 2 },
   { word_id := 1, quality := 1, ease_factor := 2, interval := 0, repetition := 0, reviewed_at := 3 },
   { word_id := 1, quality := 1, ease_factor := 2, interval := 0, repetition := 0, reviewed_at := 4 },
   { word_id := 1, quality := 1, ease_factor := 2, interval := 0, repetition := 0, reviewed_at := 5 }]

/-- The same with a sixth, successful review. -/
def ledgerThenSuccess : List ReviewEvent :=
  ledgerFiveFails ++
    [{ word_id := 1, quality := 4, ease_factor := 2, interval := 7/500, repetition := 1,
       reviewed_at := 6 }]

/-- A catalog entry for the leech scenario. -/
def wordLeech : Word := { id := 1, greek := "g", english := "e" }

/-- The CardState that get_leeches builds for wordLeech. -/
def cardLeech : CardState := { word_id := 1, greek := "g", english := "e" }

/-- A due word tagged with the manual skip marker. -/
def wordSkip : Word := { id := 1, greek := "g1", english := "e1", tags := some "skip:manual" }

/-- An untagged due word in the same catalog. -/
def wordPlain : Word := { id := 2, greek := "g2", english := "e2" }

/-- The claim-side retention percentage: successes over total, 0 with no reviews. -/
def specRatePct (succ tot : ℕ) : ℚ :=
  if tot = 0 then 0 else (succ : ℚ) / tot * 100

theorem next_state_success (now : ℚ) (s : CardState) (q : ℤ) (h3 : 3 ≤ q) (h5 : q ≤ 5) :
    next_state now s q = .ok
      { word_id := s.word_id, greek := s.greek, english := s.english,
        ease_factor := updatedEase s.ease_factor q,
        interval :=
          if severelyOverdue now s then
            min (specBranchInterval s (updatedEase s.ease_factor q)) (s.interval * (6/5))
          else specBranchInterval s (updatedEase s.ease_factor q),
        repetition := s.repetition + 1, last_review := some now } := by
  have hvalid : ¬ (q < 0 ∨ 5 < q) := by omega
  have hq3 : ¬ q < 3 := by omega
  unfold next_state
  rw [if_neg hvalid, if_neg hq3]
  rfl

theorem severelyOverdue_iff (now : ℚ) (s : CardState) :
    severelyOverdue now s = true ↔
      1 < s.interval ∧ ∃ lr, s.last_review = some lr ∧ 3 * s.interval < now - lr := by
  unfold severelyOverdue
  cases hl : s.last_review with
  | none => simp
  | some lr =>
      simp only [Bool.and_eq_true, decide_eq_true_eq]
      constructor
      · rintro ⟨h1, h2⟩
        exact ⟨h1, lr, rfl, (lt_div_iff₀ (lt_trans one_pos h1)).mp h2⟩
      · rintro ⟨h1, lr2, heq, h2⟩
        obtain rfl : lr2 = lr := (Option.some.inj heq).symm
        exact ⟨h1, (lt_div_iff₀ (lt_trans one_pos h1)).mpr h2⟩

/-- Claim C1: for every CardState and every quality in [3,5], next_state
succeeds and returns a state whose repetition equals the input repetition
plus 1 and whose interval follows the branch table on the input repetition
(0 gives LEARNING_STEP, 1 gives 1.0 day, 2 gives 6.0 days, otherwise the
previous interval times the newly updated ease factor), subject to the
overdue cap, whose condition is spelled out in the final conjunct. -/
theorem C1_success_branch_table (now : ℚ) (s : CardState) (q : ℤ)
    (h3 : 3 ≤ q) (h5 : q ≤ 5) :
    ∃ s2, next_state now s q = .ok s2 ∧
      s2.repetition = s.repetition + 1 ∧
      s2.interval =
        (if severelyOverdue now s then
           min (specBranchInterval s (updatedEase s.ease_factor q)) (s.interval * (6/5))
         else specBranchInterval s (updatedEase s.ease_factor q)) ∧
      (severelyOverdue now s = true ↔
        1 < s.interval ∧ ∃ lr, s.last_review = some lr ∧ 3 * s.interval < now - lr) :=
  ⟨_, next_state_success now s q h3 h5, rfl, rfl, severelyOverdue_iff now s⟩

/-- Witness for C1 at a fresh card and quality 4 at time 0. -/
theorem C1_witness :
    (3:ℤ) ≤ 4 ∧ (4:ℤ) ≤ 5 ∧
    ∃ s2, next_state 0 cardV 4 = .ok s2 ∧
      s2.repetition = cardV.repetition + 1 ∧
      s2.interval =
        (if severelyOverdue 0 cardV then
           min (specBranchInterval cardV (updatedEase cardV.ease_factor 4)) (cardV.interval * (6/5))
         else specBranchInterval cardV (updatedEase cardV.ease_factor 4)) ∧
      (severelyOverdue 0 cardV = true ↔
        1 < cardV.interval ∧ ∃ lr, cardV.last_review = some lr ∧ 3 * cardV.interval < 0 - lr) :=
  ⟨by decide, by decide, C1_success_branch_table 0 cardV 4 (by decide) (by decide)⟩

/-- Claim C2: for every CardState and every quality in [0,2], next_state
succeeds with interval 0 and repetition 0 regardless of the previous values,
the ease factor still updated by the SM-2 formula and floored at MIN_EASE,
and the last-review timestamp set to now.  (The input state is unchanged by
construction in this functional embedding.) -/
theorem C2_failure_resets (now : ℚ) (s : CardState) (q : ℤ) (h0 : 0 ≤ q) (h2 : q ≤ 2) :
    ∃ s2, next_state now s q = .ok s2 ∧ s2.interval = 0 ∧ s2.repetition = 0 ∧
      s2.ease_factor = updatedEase s.ease_factor q ∧ MIN_EASE ≤ s2.ease_factor ∧
      s2.last_review = some now := by
  have hvalid : ¬ (q < 0 ∨ 5 < q) := by omega
  have hq3 : q < 3 := by omega
  have h : next_state now s q = .ok
      { word_id := s.word_id, greek := s.greek, english := s.english,
        ease_factor := updatedEase s.ease_factor q, interval := 0, repetition := 0,
        last_review := some now } := by
    unfold next_state
    rw [if_neg hvalid, if_pos hq3]
  exact ⟨_, h, rfl, rfl, rfl, le_max_right _ _, rfl⟩

/-- Witness for C2 at a ten-day card and quality 1 at time 0. -/
theorem C2_witness :
    (0:ℤ) ≤ 1 ∧ (1:ℤ) ≤ 2 ∧
    ∃ s2, next_state 0 cardOverdue 1 = .ok s2 ∧ s2.interval = 0 ∧ s2.repetition = 0 ∧
      s2.ease_factor = updatedEase cardOverdue.ease_factor 1 ∧ MIN_EASE ≤ s2.ease_factor ∧
      s2.last_review = some 0 :=
  ⟨by decide, by decide, C2_failure_resets 0 cardOverdue 1 (by decide) (by decide)⟩

/-- Claim C3: for every CardState with ease_factor at least MIN_EASE and
every quality in [0,5], the state returned by next_state has ease_factor at
least MIN_EASE (1.3).  Because the bound needs nothing from the input state,
it is preserved by arbitrarily many consecutive quality-0 transitions. -/
theorem C3_ease_floor (now : ℚ) (s : CardState) (q : ℤ)
    (hs : MIN_EASE ≤ s.ease_factor) (h0 : 0 ≤ q) (h5 : q ≤ 5) :
    ∀ s2, next_state now s q = .ok s2 → MIN_EASE ≤ s2.ease_factor := by
  intro s2 h
  have hvalid : ¬ (q < 0 ∨ 5 < q) := by omega
  unfold next_state at h
  rw [if_neg hvalid] at h
  by_cases hq : q < 3
  · rw [if_pos hq] at h
    obtain rfl := (Except.ok.inj h).symm
    exact le_max_right _ _
  · rw [if_neg hq] at h
    obtain rfl := (Except.ok.inj h).symm
    exact le_max_right _ _

theorem updatedEase_cardV_zero : updatedEase cardV.ease_factor 0 = 17/10 := by
  show updatedEase DEFAULT_EASE 0 = 17/10
  unfold updatedEase DEFAULT_EASE MIN_EASE
  rw [max_eq_left (by norm_num)]
  norm_num

theorem next_state_cardV_zero : next_state 0 cardV 0 = .ok cardV0 := by
  unfold next_state
  rw [if_neg (by decide), if_pos (by decide)]
  unfold cardV0
  rw [updatedEase_cardV_zero]
  rfl

/-- Witness for C3 at a fresh card and quality 0 at time 0. -/
theorem C3_witness :
    MIN_EASE ≤ cardV.ease_factor ∧ (0:ℤ) ≤ 0 ∧ (0:ℤ) ≤ 5 ∧ MIN_EASE ≤ cardV0.ease_factor :=
  ⟨by norm_num [cardV, MIN_EASE, DEFAULT_EASE], by decide, by decide,
   C3_ease_floor 0 cardV 0 (by norm_num [cardV, MIN_EASE, DEFAULT_EASE]) (by decide) (by decide)
     cardV0 next_state_cardV_zero⟩

/-- Claim C4: for every CardState whose interval exceeds one day and whose
elapsed time since the last review exceeds 3 times that interval, a
successful review (quality in [3,5]) yields an interval of at most the
previous interval times 1.2. -/
theorem C4_overdue_cap (now : ℚ) (s : CardState) (q : ℤ) (lr : ℚ)
    (h1 : 1 < s.interval) (hlr : s.last_review = some lr)
    (hel : 3 * s.interval < now - lr) (h3 : 3 ≤ q) (h5 : q ≤ 5) :
    ∀ s2, next_state now s q = .ok s2 → s2.interval ≤ s.interval * (6/5) := by
  intro s2 h
  rw [next_state_success now s q h3 h5] at h
  have hso : severelyOverdue now s = true :=
    (severelyOverdue_iff now s).mpr ⟨h1, lr, hlr, hel⟩
  obtain rfl := (Except.ok.inj h).symm
  show (if severelyOverdue now s then
          min (specBranchInterval s (updatedEase s.ease_factor q)) (s.interval * (6/5))
        else specBranchInterval s (updatedEase s.ease_factor q)) ≤ s.interval * (6/5)
  rw [if_pos hso]
  exact min_le_right _ _

theorem next_state_cardOverdue_four : next_state 40 cardOverdue 4 = .ok cardOverdueNext := by
  rw [next_state_success 40 cardOverdue 4 (by decide) (by decide)]
  have hso : severelyOverdue 40 cardOverdue = true :=
    (severelyOverdue_iff 40 cardOverdue).mpr ⟨by norm_num [cardOverdue], 0, rfl, by norm_num [cardOverdue]⟩
  rw [if_pos hso]
  have he : updatedEase cardOverdue.ease_factor 4 = 5/2 := by
    show updatedEase (5/2) 4 = 5/2
    unfold updatedEase MIN_EASE
    rw [max_eq_left (by norm_num)]
    norm_num
  have hb : specBranchInterval cardOverdue (updatedEase cardOverdue.ease_factor 4) = 25 := by
    rw [he]
    unfold specBranchInterval cardOverdue
    norm_num
  rw [hb, he]
  unfold cardOverdueNext cardOverdue
  rw [min_eq_right (by norm_num)]
  norm_num

/-- Witness for C4: repetition 5, interval 10, last reviewed 40 days ago,
quality 4 gives interval 12 = 10 * 1.2, not the unguarded 25. -/
theorem C4_witness :
    1 < cardOverdue.interval ∧ cardOverdue.last_review = some 0 ∧
    3 * cardOverdue.interval < 40 - 0 ∧ (3:ℤ) ≤ 4 ∧ (4:ℤ) ≤ 5 ∧
    cardOverdueNext.interval ≤ cardOverdue.interval * (6/5) :=
  ⟨by norm_num [cardOverdue], rfl, by norm_num [cardOverdue], by decide, by decide,
   C4_overdue_cap 40 cardOverdue 4 0 (by norm_num [cardOverdue]) rfl
     (by norm_num [cardOverdue]) (by decide) (by decide) cardOverdueNext
     next_state_cardOverdue_four⟩

/-- Claim C5: for every integer quality outside [0,5], next_state fails with
the InvalidRating error and record_review also fails, appending no ledger
event; the input CardState is unchanged by construction in this functional
embedding. -/
theorem C5_invalid_rating (now : ℚ) (ledger : List ReviewEvent) (s : CardState) (q : ℤ)
    (h : q < 0 ∨ 5 < q) :
    next_state now s q = .error "quality must be 0-5" ∧
      record_review now ledger s q = .error "quality must be 0-5" := by
  have h1 : next_state now s q = .error "quality must be 0-5" := by
    unfold next_state
    rw [if_pos h]
  refine ⟨h1, ?_⟩
  unfold record_review
  rw [h1]

/-- Witness for C5 at quality 6. -/
theorem C5_witness :
    ((6:ℤ) < 0 ∨ 5 < (6:ℤ)) ∧
    next_state 0 cardV 6 = .error "quality must be 0-5" ∧
      record_review 0 [] cardV 6 = .error "quality must be 0-5" :=
  ⟨by decide, C5_invalid_rating 0 [] cardV 6 (by decide)⟩

/-- Claim C6 (code bug): the claim says is_due returns true when no prior
review exists, but on such a card due_at returns the naive datetime.min
sentinel and the comparison with the aware datetime.now(UTC) raises
TypeError, so is_due raises instead of returning true.  This theorem
evaluates the embedded code at the failing input. -/
theorem C6_is_due_virgin_raises :
    is_due 0 cardV = .error "TypeError: aware and naive datetimes are not comparable" := rfl

theorem countLeadingFailures_eq (l : List ReviewEvent) :
    countLeadingFailures l = (l.takeWhile (fun e => decide (e.quality < 3))).length := by
  induction l with
  | nil => rfl
  | cons e rest ih =>
      by_cases h : e.quality < 3
      · simp [countLeadingFailures, List.takeWhile_cons, h, ih]
      · simp [countLeadingFailures, List.takeWhile_cons, h]

/-- Claim C7: get_consecutive_failures counts, scanning the events of the
item from most recent backwards within the 10 most recent events, the
consecutive events with quality below 3 until the first event with quality
at least 3, and is_leech holds exactly when this count is at least 4; five
consecutive quality-1 reviews give count 5 and leech status, and one
subsequent quality-4 review gives count 0 and non-leech status. -/
theorem C7_consecutive_failures_leech :
    (∀ (ledger : List ReviewEvent) (wid : ℤ),
        get_consecutive_failures ledger wid =
          ((((eventsFor ledger wid).reverse).take 10).takeWhile
              (fun e => decide (e.quality < 3))).length ∧
        (is_leech ledger wid = true ↔ 4 ≤ get_consecutive_failures ledger wid)) ∧
    get_consecutive_failures ledgerFiveFails 1 = 5 ∧ is_leech ledgerFiveFails 1 = true ∧
    get_consecutive_failures ledgerThenSuccess 1 = 0 ∧ is_leech ledgerThenSuccess 1 = false := by
  refine ⟨fun ledger wid => ⟨countLeadingFailures_eq _, ?_⟩, by decide, by decide, by decide, by decide⟩
  simp [is_leech, LEECH_THRESHOLD]

/-- Claim C9: get_retention_stats computes each retention rate as successes
(quality at least 3) over total reviews as a percentage with 0 for an empty
window, the trend is improving exactly when the trailing-7-day mean quality
exceeds the older mean by more than 0.3, declining exactly when it is below
the older mean by more than 0.3, and stable otherwise, a missing mean being
0; on an empty ledger everything is 0 and the trend is stable. -/
theorem C9_retention_stats (now : ℚ) (ledger : List ReviewEvent) :
    ((get_retention_stats now ledger).total_reviews = ledger.length ∧
     (get_retention_stats now ledger).recent_reviews =
       (ledger.filter (fun e => decide (now - 7 ≤ e.reviewed_at))).length ∧
     (get_retention_stats now ledger).retention_rate =
       specRatePct (ledger.filter (fun e => decide (3 ≤ e.quality))).length ledger.length ∧
     (get_retention_stats now ledger).recent_retention =
       specRatePct
         ((ledger.filter (fun e => decide (now - 7 ≤ e.reviewed_at))).filter
            (fun e => decide (3 ≤ e.quality))).length
         (ledger.filter (fun e => decide (now - 7 ≤ e.reviewed_at))).length) ∧
    (((get_retention_stats now ledger).quality_trend = "improving" ↔
        avgQuality (ledger.filter (fun e => decide (e.reviewed_at < now - 7))) + 3/10 <
          avgQuality (ledger.filter (fun e => decide (now - 7 ≤ e.reviewed_at)))) ∧
     ((get_retention_stats now ledger).quality_trend = "declining" ↔
        avgQuality (ledger.filter (fun e => decide (now - 7 ≤ e.reviewed_at))) <
          avgQuality (ledger.filter (fun e => decide (e.reviewed_at < now - 7))) - 3/10) ∧
     ((get_retention_stats now ledger).quality_trend = "stable" ↔
        (¬ (avgQuality (ledger.filter (fun e => decide (e.reviewed_at < now - 7))) + 3/10 <
              avgQuality (ledger.filter (fun e => decide (now - 7 ≤ e.reviewed_at)))) ∧
         ¬ (avgQuality (ledger.filter (fun e => decide (now - 7 ≤ e.reviewed_at))) <
              avgQuality (ledger.filter (fun e => decide (e.reviewed_at < now - 7))) - 3/10)))) ∧
    get_retention_stats now [] =
      { retention_rate := 0, recent_retention := 0, total_reviews := 0, recent_reviews := 0,
        avg_quality_recent := 0, avg_quality_older := 0, quality_trend := "stable" } := by
  unfold get_retention_stats specRatePct
  set recent := ledger.filter (fun e => decide (now - 7 ≤ e.reviewed_at)) with hrec
  set older := ledger.filter (fun e => decide (e.reviewed_at < now - 7)) with hold
  refine ⟨⟨rfl, rfl, ?_, ?_⟩, ⟨?_, ?_, ?_⟩, ?_⟩
  · by_cases h : ledger.length = 0 <;> simp [h]
  · by_cases h : recent.length = 0 <;> simp [h]
  · by_cases h1 : avgQuality older + 3/10 < avgQuality recent
    · simp [h1]
    · by_cases h2 : avgQuality recent < avgQuality older - 3/10 <;> simp [h1, h2]
  · by_cases h1 : avgQuality older + 3/10 < avgQuality recent
    · have h2 : ¬ avgQuality recent < avgQuality older - 3/10 := by linarith
      simp [h1, h2]
    · by_cases h2 : avgQuality recent < avgQuality older - 3/10 <;> simp [h1, h2]
  · by_cases h1 : avgQuality older + 3/10 < avgQuality recent
    · simp [h1]
    · by_cases h2 : avgQuality recent < avgQuality older - 3/10 <;> simp [h1, h2]
  · simp [avgQuality]
    norm_num

theorem collectLeeches_mem (words : List Word) (ledger : List ReviewEvent) (limit : ℕ) :
    ∀ (cands : List ℤ) (acc : List CardState),
      (∀ c ∈ acc, c.ease_factor = DEFAULT_EASE ∧ c.interval = 0 ∧ c.repetition = 0 ∧
          c.last_review = none ∧
          ∃ w ∈ words, c.word_id = w.id ∧ c.greek = w.greek ∧ c.english = w.english) →
      ∀ c ∈ collectLeeches words ledger limit cands acc,
        c.ease_factor = DEFAULT_EASE ∧ c.interval = 0 ∧ c.repetition = 0 ∧
          c.last_review = none ∧
          ∃ w ∈ words, c.word_id = w.id ∧ c.greek = w.greek ∧ c.english = w.english := by
  intro cands
  induction cands with
  | nil => intro acc hacc c hc; exact hacc c hc
  | cons wid rest ih =>
      intro acc hacc c hc
      unfold collectLeeches at hc
      have hacc1 : ∀ c ∈ (if is_leech ledger wid then
            match words.find? (fun w => decide (w.id = wid)) with
            | some w => acc ++ [{ word_id := w.id, greek := w.greek, english := w.english }]
            | none => acc
          else acc),
          c.ease_factor = DEFAULT_EASE ∧ c.interval = 0 ∧ c.repetition = 0 ∧
            c.last_review = none ∧
            ∃ w ∈ words, c.word_id = w.id ∧ c.greek = w.greek ∧ c.english = w.english := by
        by_cases hl : is_leech ledger wid
        · rw [if_pos hl]
          cases hf : words.find? (fun w => decide (w.id = wid)) with
          | none => exact hacc
          | some w =>
              intro c2 hc2
              rcases List.mem_append.mp hc2 with h | h
              · exact hacc c2 h
              · have hw : w ∈ words := List.mem_of_find?_eq_some hf
                rw [List.mem_singleton.mp h]
                exact ⟨rfl, rfl, rfl, rfl, w, hw, rfl, rfl, rfl⟩
        · rw [if_neg hl]
          exact hacc
      by_cases hlim : limit ≤ (if is_leech ledger wid then
            match words.find? (fun w => decide (w.id = wid)) with
            | some w => acc ++ [{ word_id := w.id, greek := w.greek, english := w.english }]
            | none => acc
          else acc).length
      · rw [if_pos hlim] at hc
        exact hacc1 c hc
      · rw [if_neg hlim] at hc
        exact ih _ hacc1 c hc

/-- Claim C10: every CardState returned by get_leeches carries only the
identity fields of some catalog word together with the default scheduling
fields: ease DEFAULT_EASE, interval 0, repetition 0, no last review,
whatever the ledger holds for that word. -/
theorem C10_leeches_default_state (words : List Word) (ledger : List ReviewEvent) (limit : ℕ) :
    ∀ c ∈ get_leeches words ledger limit,
      c.ease_factor = DEFAULT_EASE ∧ c.interval = 0 ∧ c.repetition = 0 ∧
        c.last_review = none ∧
        ∃ w ∈ words, c.word_id = w.id ∧ c.greek = w.greek ∧ c.english = w.english := by
  intro c hc
  exact collectLeeches_mem words ledger limit (leechCandidates ledger limit) []
    (by intro c2 hc2; cases hc2) c hc

theorem get_leeches_scenario :
    get_leeches [wordLeech] ledgerFiveFails 20 = [cardLeech] := rfl

/-- Witness for C10: a word with five consecutive failures is returned by
get_leeches with all default scheduling fields. -/
theorem C10_witness :
    cardLeech ∈ get_leeches [wordLeech] ledgerFiveFails 20 ∧
    (cardLeech.ease_factor = DEFAULT_EASE ∧ cardLeech.interval = 0 ∧
      cardLeech.repetition = 0 ∧ cardLeech.last_review = none ∧
      ∃ w ∈ [wordLeech], cardLeech.word_id = w.id ∧ cardLeech.greek = w.greek ∧
        cardLeech.english = w.english) := by
  have hmem : cardLeech ∈ get_leeches [wordLeech] ledgerFiveFails 20 := by
    rw [get_leeches_scenario]
    exact List.mem_singleton_self _
  exact ⟨hmem, C10_leeches_default_state [wordLeech] ledgerFiveFails 20 cardLeech hmem⟩

theorem cardOf_word_id (ledger : List ReviewEvent) (w : Word) :
    (cardOf ledger w).word_id = w.id := by
  unfold cardOf
  cases latestEvent ledger w.id <;> rfl

theorem dueLe_trans (k : ℤ → ℚ) : ∀ a b c : CardState,
    dueLe k a b = true → dueLe k b c = true → dueLe k a c = true := by
  intro a b c
  unfold dueLe
  cases a.last_review <;> cases b.last_review <;> cases c.last_review <;>
    intro hab hbc <;> simp_all <;> linarith

theorem dueLe_total (k : ℤ → ℚ) : ∀ a b : CardState,
    (dueLe k a b || dueLe k b a) = true := by
  intro a b
  unfold dueLe
  cases ha : a.last_review <;> cases hb : b.last_review <;>
    simp only [Bool.or_eq_true, decide_eq_true_eq]
  · exact le_total _ _
  · exact Or.inr trivial
  · exact Or.inl trivial
  · exact le_total _ _

/-- Claim C8: load_due_cards returns only due, non-excluded items; the
result is ordered with previously-reviewed items first in ascending order
of latest review time followed by never-reviewed items; and under distinct
catalog ids, an item tagged with the manual-skip marker never appears, even
when due. -/
theorem C8_due_query (now : ℚ) (words : List Word) (ledger : List ReviewEvent)
    (randKey : ℤ → ℚ) (limit : ℕ) (hids : (words.map Word.id).Nodup) :
    (∀ c ∈ load_due_cards now words ledger randKey limit,
        ∃ w ∈ words, c = cardOf ledger w ∧ hasSkipTag w = false ∧
          dueInQuery now c = true) ∧
    List.Pairwise (fun a b : CardState =>
        (∀ x y, a.last_review = some x → b.last_review = some y → x ≤ y) ∧
        (a.last_review = none → b.last_review = none))
      (load_due_cards now words ledger randKey limit) ∧
    (∀ w ∈ words, hasSkipTag w = true →
        ∀ c ∈ load_due_cards now words ledger randKey limit, c.word_id ≠ w.id) := by
  have hmem : ∀ c ∈ load_due_cards now words ledger randKey limit,
      ∃ w ∈ words, c = cardOf ledger w ∧ hasSkipTag w = false ∧
        dueInQuery now c = true := by
    intro c hc
    unfold load_due_cards at hc
    have h2 := (List.take_sublist limit _).subset hc
    have hc1 : c ∈ ((words.filter (fun w => !hasSkipTag w)).map (cardOf ledger)).filter
        (dueInQuery now) := ((List.mergeSort_perm _ _).mem_iff).mp h2
    obtain ⟨hcm, hdue⟩ := List.mem_filter.mp hc1
    obtain ⟨w, hw, rfl⟩ := List.mem_map.mp hcm
    obtain ⟨hw2, hskip⟩ := List.mem_filter.mp hw
    exact ⟨w, hw2, rfl, by simpa using hskip, hdue⟩
  refine ⟨hmem, ?_, ?_⟩
  · have hpair := List.sorted_mergeSort (dueLe_trans randKey) (dueLe_total randKey)
      (((words.filter (fun w => !hasSkipTag w)).map (cardOf ledger)).filter (dueInQuery now))
    have hpair2 := List.Pairwise.sublist (List.take_sublist limit _) hpair
    refine hpair2.imp ?_
    intro a b hab
    constructor
    · intro x y hx hy
      unfold dueLe at hab
      rw [hx, hy] at hab
      exact of_decide_eq_true hab
    · intro hxa
      cases hb : b.last_review with
      | none => rfl
      | some y =>
          unfold dueLe at hab
          rw [hxa, hb] at hab
          exact absurd hab (by simp)
  · intro w hw htag c hc
    obtain ⟨w2, hw2, rfl, hskip2, _⟩ := hmem c hc
    intro heq
    have hw2id : (cardOf ledger w2).word_id = w2.id := cardOf_word_id ledger w2
    have hsame : w2 = w := List.inj_on_of_nodup_map hids hw2 hw (by rw [← hw2id, heq])
    rw [hsame, htag] at hskip2
    cases hskip2

theorem load_due_scenario :
    load_due_cards 0 [wordSkip, wordPlain] [] (fun _ => (0:ℚ)) 100 = [cardOf [] wordPlain] := by
  unfold load_due_cards
  have h1 : (([wordSkip, wordPlain].filter (fun w => !hasSkipTag w)).map
      (cardOf ([] : List ReviewEvent))).filter (dueInQuery 0) = [cardOf [] wordPlain] := rfl
  rw [h1, List.mergeSort_singleton _]
  rfl

/-- Witness for C8: a due skip-tagged word is omitted while the untagged
due word of the same catalog is returned. -/
theorem C8_witness :
    ([wordSkip, wordPlain].map Word.id).Nodup ∧ hasSkipTag wordSkip = true ∧
      (cardOf [] wordPlain).word_id ≠ wordSkip.id := by
  refine ⟨by decide, by decide, ?_⟩
  have h := (C8_due_query 0 [wordSkip, wordPlain] [] (fun _ => 0) 100 (by decide)).2.2
  refine h wordSkip (by simp) (by decide) (cardOf [] wordPlain) ?_
  rw [load_due_scenario]
  exact List.mem_singleton_self _

end GreekBot
